import Mathlib

/-!
Verification of the SHL assessment recommender's matching engine
(`utils/nlp_processor.py`, `utils/data_loader.py`, `app.py`).

The engine is embedded shallowly:

* Python strings become `String`; all character-level operations
  (substring test, lowercasing, whitespace splitting, `str.replace`,
  the two `re.sub` calls) are implemented by structural recursion over
  `List Char` so that every definition evaluates inside the kernel.
  The inputs exercised by the catalog and the queries are ASCII, so
  ASCII case folding and the ASCII reading of `\w` / `\s` are faithful.
* Python floats become `ℚ`.  Every score is a sum of the constants
  0.02, 0.05, 0.3, 0.5, 2.0 scaled by small integers, and every
  comparison proved here holds with a wide margin, so exact rational
  arithmetic agrees with IEEE double arithmetic on these inputs.
* The TF-IDF cosine similarity row computed by scikit-learn is the one
  analytic component; `get_recommendations` takes it as an explicit
  `rawScores : List ℚ` argument (one entry per catalog record, catalog
  order, each in `[0,1]`).  Where a theorem fixes concrete raw scores,
  the scores are justified by `queryVectorIsZero`: a query none of
  whose tokens occurs in the fitted corpus is transformed to the zero
  vector, whose cosine similarity against every record is 0.
-/

/-! ## Character-level string primitives -/

/-- Decides whether `p` is a prefix of `l`.  Written with the list
recursor (instead of equation compilation) so that the kernel
evaluates it in time linear in the list lengths; `prefixOfChars_nil`,
`prefixOfChars_cons_nil` and `prefixOfChars_cons_cons` below recover
the usual equations by `rfl`. -/
def prefixOfChars (p l : List Char) : Bool :=
  List.rec (motive := fun _ => List Char → Bool) (fun _ => true)
    (fun a _ ih m =>
      List.casesOn (motive := fun _ => Bool) m false (fun b bs => a == b && ih bs))
    p l

/-- Decides whether `pat` occurs contiguously in the second list
(Python's `p in l` on strings): a prefix check at every suffix.
Written with the list recursor for kernel-linear evaluation. -/
def subOfChars (pat : List Char) (l : List Char) : Bool :=
  List.rec (motive := fun _ => Bool) pat.isEmpty
    (fun c cs ih => prefixOfChars pat (c :: cs) || ih) l

/-- Python `pat in s` (substring containment). -/
def strContains (s pat : String) : Bool :=
  subOfChars pat.toList s.toList

/-- Python `str.lower()` (ASCII case folding). -/
def strLower (s : String) : String :=
  ⟨s.toList.map Char.toLower⟩

/-- Splits a character list at every character satisfying `p`,
dropping empty pieces; `acc` holds the current piece reversed.
Written with the list recursor for kernel-linear evaluation. -/
def splitDropChars (p : Char → Bool) (acc : List Char) (l : List Char) : List (List Char) :=
  List.rec (motive := fun _ => List Char → List (List Char))
    (fun acc => if acc.isEmpty then [] else [acc.reverse])
    (fun c _ ih acc =>
      if p c then
        if acc.isEmpty then ih [] else acc.reverse :: ih []
      else ih (c :: acc))
    l acc

/-- Python `str.split()` with no argument: split on whitespace runs,
no empty pieces. -/
def splitWs (s : String) : List String :=
  (splitDropChars Char.isWhitespace [] s.toList).map (fun w => ⟨w⟩)

/-- Joins words with single spaces.  Written with the list recursor
for kernel-linear evaluation. -/
def joinSpace (ws : List (List Char)) : List Char :=
  List.rec (motive := fun _ => List Char) []
    (fun w tail ih =>
      List.casesOn (motive := fun _ => List Char) tail w (fun _ _ => w ++ ' ' :: ih))
    ws

/-- Python `re.sub(r'\s+', ' ', s).strip()`: collapse whitespace runs
to a single space and trim the ends.  This equals rejoining the
whitespace-split words with single spaces. -/
def normalizeWs (s : String) : String :=
  ⟨joinSpace (splitDropChars Char.isWhitespace [] s.toList)⟩

/-- One fuel-indexed step list for `str.replace`: replaces each
left-to-right non-overlapping occurrence of `pat` by `rep` (the fuel,
instantiated with the string length, bounds the recursion).  Written
with the natural-number recursor for kernel-linear evaluation. -/
def replaceAllFuel (pat rep : List Char) (fuel : ℕ) (l : List Char) : List Char :=
  Nat.rec (motive := fun _ => List Char → List Char)
    (fun s => s)
    (fun _ ih s =>
      List.casesOn (motive := fun _ => List Char) s []
        (fun c cs =>
          if pat ≠ [] && prefixOfChars pat (c :: cs) then
            rep ++ ih (List.drop (pat.length - 1) cs)
          else
            c :: ih cs))
    fuel l

/-- Python `s.replace(pat, rep)` (all occurrences, left to right). -/
def strReplace (s pat rep : String) : String :=
  ⟨replaceAllFuel pat.toList rep.toList s.toList.length s.toList⟩

/-- A regex `\w` character in the ASCII range: alphanumeric or
underscore.  (Python's `\w` additionally matches non-ASCII word
characters; all catalog and query text handled here is ASCII.) -/
def isWordChar (c : Char) : Bool := c.isAlphanum || c == '_'

/-- Python `re.sub(r'[^\w\s]', ' ', s)`: every character that is
neither a word character nor whitespace becomes a space. -/
def replaceSpecial (s : String) : String :=
  ⟨s.toList.map (fun c => if isWordChar c || c.isWhitespace then c else ' ')⟩

/-! ## Data model (`AssessmentRecord`) -/

/-- One catalog record.  String fields mirror `assessment.get(k, '')`:
a missing key and an empty string behave identically everywhere these
fields are used.  The two boolean fields keep the `None`-when-missing
distinction (`Option Bool`) because the filters compare them with
`is not None` / `!=` semantics. -/
structure Assessment where
  id : String := ""
  name : String := ""
  description : String := ""
  type : String := ""
  duration : String := ""
  skills : String := ""
  link : String := ""
  remote_available : Option Bool := none
  adaptive_testing : Option Bool := none
  deriving Repr, DecidableEq, Inhabited

/-- A returned record: the assessment plus the two synonymous score
keys `similarity_score` and `similarity` set by `get_recommendations`. -/
structure ScoredAssessment where
  assessment : Assessment
  similarity_score : ℚ
  similarity : ℚ
  deriving Repr, DecidableEq, Inhabited

/-- Python `assessment.copy()` plus the two score keys. -/
def mkScored (a : Assessment) (sc : ℚ) : ScoredAssessment :=
  { assessment := a, similarity_score := sc, similarity := sc }

/-! ## Text Normalizer (`NLPProcessor._preprocess_text`) -/

/-- The fixed multi-word phrase list joined into single underscored
tokens (`phrases_to_join` in the source). -/
def phrases_to_join : List String :=
  ["front end", "back end", "full stack", "data science", "machine learning",
   "artificial intelligence", "business intelligence", "project management",
   "product management", "user experience", "user interface", "quality assurance",
   "business analysis", "database administrator", "system administrator",
   "human resources", "sales representative", "account manager", "customer service"]

/-- Source `NLPProcessor._preprocess_text`: lower-case, replace
non-word/non-space characters with spaces, collapse whitespace, then
join the known phrases with underscores.  Empty input yields `""`. -/
def _preprocess_text (text : String) : String :=
  if text = "" then ""
  else
    let t := normalizeWs (replaceSpecial (strLower text))
    phrases_to_join.foldl
      (fun t phrase =>
        if strContains t phrase then strReplace t phrase (strReplace phrase " " "_")
        else t)
      t

/-! ## Vector Index build (`NLPProcessor._compute_assessment_vectors`) -/

/-- The weighted composite text
`f"{name} {name} {description} {skills} {skills} {type_info}"`. -/
def compositeText (a : Assessment) : String :=
  a.name ++ " " ++ a.name ++ " " ++ a.description ++ " " ++ a.skills ++ " "
    ++ a.skills ++ " " ++ a.type

/-- The synthetic category tags appended to the local variable
`processed_text` for a record, selected by substring checks on the
record name (the `if 'java' in name.lower(): ...` chain). -/
def categoryTags (name : String) : String :=
  let n := strLower name
  if strContains n "java" then " java_developer coding_java programming_java"
  else if strContains n "python" then " python_developer coding_python programming_python"
  else if strContains n "sales" then " sales_representative sales_professional"
  else if strContains n "leadership" || strContains n "management" then
    " leadership_skills manager_skills"
  else if strContains n "data" && (strContains n "science" || strContains n "analysis") then
    " data_scientist data_analysis"
  else ""

/-- The value held by the loop-local variable `processed_text` after
the tag augmentation: normalized composite text plus tags. -/
def processedTextWithTags (a : Assessment) : String :=
  _preprocess_text (compositeText a) ++ categoryTags a.name

/-- Source `self.processed_assessments`, the list actually passed to
`fit_transform`.  In the source, `self.processed_assessments.append(processed_text)`
runs BEFORE `processed_text += <tags>`; the `+=` rebinds the loop-local
string and the stored list entry is unchanged.  The fitted texts are
therefore the normalized composites WITHOUT the synthetic tags. -/
def processed_assessments (assessments : List Assessment) : List String :=
  assessments.map (fun a => _preprocess_text (compositeText a))

/-- scikit-learn's default token pattern `\b\w\w+\b`: maximal runs of
word characters of length at least 2 (the vectorizer lower-cases its
input, which is already lower-case here). -/
def tokenize (s : String) : List String :=
  ((splitDropChars (fun c => !(isWordChar c)) [] (strLower s).toList).filter
    (fun w => 2 ≤ w.length)).map (fun w => ⟨w⟩)

/-- All tokens occurring in a document corpus. -/
def corpusTokens (docs : List String) : List String :=
  (docs.map tokenize).flatten

/-- The fitted vocabulary of `TfidfVectorizer(stop_words='english')`:
corpus tokens minus the stop-word list.  The concrete English
stop-word list is scikit-learn configuration, not repository code, so
it is a parameter; every theorem below holds for every choice of it. -/
def vocabulary (stopWords : List String) (docs : List String) : List String :=
  (corpusTokens docs |>.filter (fun t => !(stopWords.contains t))).dedup

/-- The engine state built by `NLPProcessor.__init__`. -/
structure NLPProcessor where
  assessments : List Assessment
  processed : List String
  vocab : List String
  deriving Repr, DecidableEq

/-- Source `NLPProcessor.__init__` / `_compute_assessment_vectors`.
`fit_transform` (scikit-learn) raises `ValueError` when the extracted
vocabulary is empty — in particular on an empty document list — and
`__init__` re-raises (`except ... raise`), modelled as `Except.error`. -/
def NLPProcessor.init (stopWords : List String) (assessments : List Assessment) :
    Except String NLPProcessor :=
  let docs := processed_assessments assessments
  let v := vocabulary stopWords docs
  if v.isEmpty then .error "empty vocabulary"
  else .ok { assessments := assessments, processed := docs, vocab := v }

/-- A query whose preprocessed form shares no token with the fitted
corpus is projected by `vectorizer.transform` to the zero vector (the
vocabulary is a subset of the corpus tokens for every stop-word list),
so its cosine similarity row is identically 0.  This check justifies
the concrete `rawScores` used at concrete inputs below. -/
def queryVectorIsZero (assessments : List Assessment) (query : String) : Bool :=
  (tokenize (_preprocess_text query)).all
    (fun t => !((corpusTokens (processed_assessments assessments)).contains t))

/-! ## Built-in sample catalog (`data_loader._generate_sample_assessments`) -/

/-- The fixed built-in sample catalog returned when no data file is
available. -/
def sampleAssessments : List Assessment :=
  [{ id := "SHL-001", name := "Verbal Reasoning Assessment",
     description := "Measures the ability to understand and evaluate written information",
     type := "Cognitive", duration := "25 minutes",
     skills := "Critical thinking, language comprehension, analytical reasoning",
     link := "https://www.shl.com/assessments/verbal-reasoning/",
     remote_available := some true, adaptive_testing := some false },
   { id := "SHL-002", name := "Numerical Reasoning Assessment",
     description := "Evaluates the ability to interpret numerical data and make logical decisions",
     type := "Cognitive", duration := "35 minutes",
     skills := "Numerical ability, data interpretation, problem-solving",
     link := "https://www.shl.com/assessments/numerical-reasoning/",
     remote_available := some true, adaptive_testing := some true },
   { id := "SHL-003", name := "Inductive Reasoning Assessment",
     description := "Assesses logical thinking and pattern recognition ability",
     type := "Cognitive", duration := "30 minutes",
     skills := "Pattern recognition, logical thinking, problem-solving",
     link := "https://www.shl.com/assessments/inductive-reasoning/",
     remote_available := some true, adaptive_testing := some false },
   { id := "SHL-004", name := "Mechanical Reasoning Assessment",
     description := "Measures understanding of mechanical and physical principles",
     type := "Technical", duration := "20 minutes",
     skills := "Mechanical aptitude, spatial visualization, applied physics",
     link := "https://www.shl.com/assessments/mechanical-reasoning/",
     remote_available := some false, adaptive_testing := some false },
   { id := "SHL-005", name := "Coding Assessment for Python",
     description := "Evaluates programming skills and problem-solving in Python",
     type := "Technical", duration := "60 minutes",
     skills := "Python programming, algorithms, data structures",
     link := "https://www.shl.com/assessments/coding-python/",
     remote_available := some true, adaptive_testing := some true },
   { id := "SHL-006", name := "Leadership Competency Assessment",
     description := "Evaluates leadership potential and management capabilities",
     type := "Behavioral", duration := "45 minutes",
     skills := "Leadership, decision-making, team management",
     link := "https://www.shl.com/assessments/leadership-competency/",
     remote_available := some true, adaptive_testing := some false },
   { id := "SHL-007", name := "Customer Service Assessment",
     description := "Assesses aptitude for customer-facing roles and service orientation",
     type := "Behavioral", duration := "30 minutes",
     skills := "Communication, empathy, problem resolution",
     link := "https://www.shl.com/assessments/customer-service/",
     remote_available := some true, adaptive_testing := some false },
   { id := "SHL-008", name := "Excel Skills Assessment",
     description := "Measures proficiency in Microsoft Excel for data analysis and reporting",
     type := "Technical", duration := "40 minutes",
     skills := "Excel, data analysis, formula creation",
     link := "https://www.shl.com/assessments/excel-skills/",
     remote_available := some true, adaptive_testing := some true },
   { id := "SHL-009", name := "Personality Assessment",
     description := "Measures work-related personality traits and behavioral tendencies",
     type := "Behavioral", duration := "25 minutes",
     skills := "Self-awareness, workplace behavior, interpersonal style",
     link := "https://www.shl.com/assessments/personality-profile/",
     remote_available := some true, adaptive_testing := some false },
   { id := "SHL-010", name := "Situational Judgement Test",
     description := "Evaluates decision-making in realistic workplace scenarios",
     type := "Behavioral", duration := "30 minutes",
     skills := "Decision-making, workplace judgment, conflict resolution",
     link := "https://www.shl.com/assessments/situational-judgement/",
     remote_available := some true, adaptive_testing := some true }]

/-! ## Boost/Penalty Engine (`get_recommendations`, lines 154-255) -/

/-- The static category keyword table `skill_categories`. -/
def skill_categories : List (String × List String) :=
  [("programming",
    ["java", "python", "javascript", "c++", "c#", ".net", "ruby", "php", "go", "rust",
     "scala", "perl", "assembly", "swift", "kotlin", "dart", "typescript", "html",
     "css", "sql", "nosql", "r", "matlab", "programming", "coding", "developer",
     "software", "web", "mobile", "frontend", "backend", "fullstack", "algorithm",
     "data structure"]),
   ("frameworks",
    ["spring", "react", "angular", "vue", "django", "flask", "laravel", "express",
     "node", "rails", "hibernate", "bootstrap", "jquery", ".net", "aspnet", "symfony",
     "ember", "gatsby", "nextjs", "nuxtjs", "flutter"]),
   ("data",
    ["database", "sql", "mysql", "postgresql", "oracle", "mongodb", "nosql", "redis",
     "cassandra", "elasticsearch", "data", "analytics", "big data", "hadoop", "spark",
     "etl", "tableau", "power bi", "data lake", "data warehouse", "bi",
     "business intelligence"]),
   ("cloud",
    ["aws", "azure", "gcp", "cloud", "docker", "kubernetes", "serverless", "lambda",
     "ec2", "s3", "microservices", "devops", "cicd", "jenkins", "terraform", "iaas",
     "paas", "saas"]),
   ("ai_ml",
    ["machine learning", "artificial intelligence", "ai", "ml", "deep learning",
     "neural network", "nlp", "natural language processing", "computer vision",
     "data science", "tensorflow", "pytorch", "scikit-learn", "keras", "regression",
     "classification", "clustering"]),
   ("sales",
    ["sales", "marketing", "customer", "account", "business development", "client",
     "revenue", "lead", "pipeline", "crm", "salesforce", "hubspot", "closing",
     "negotiation", "pitch", "presentation", "relationship", "solution selling",
     "b2b", "b2c", "retail"]),
   ("management",
    ["manager", "management", "lead", "leadership", "supervisor", "director",
     "executive", "ceo", "cto", "coo", "cfo", "vp", "head", "chief", "project manager",
     "program manager", "scrum master", "agile", "team lead"]),
   ("finance",
    ["accounting", "finance", "financial", "investment", "banking", "trading", "audit",
     "tax", "budget", "forecast", "analysis", "capital", "risk", "compliance",
     "regulation", "portfolio", "bank", "banker", "loan", "credit", "debit",
     "transaction", "deposit", "withdrawal", "interest", "mortgage", "payment"]),
   ("hr",
    ["hr", "human resources", "talent", "recruitment", "recruiting", "hiring",
     "onboarding", "training", "development", "performance", "compensation",
     "benefits", "employee", "workforce", "culture", "diversity", "inclusion"]),
   ("design",
    ["design", "ux", "ui", "user experience", "user interface", "graphic", "visual",
     "creative", "art", "illustrator", "photoshop", "sketch", "figma", "adobe",
     "wireframe", "prototype", "accessibility"]),
   ("administrative",
    ["administrative", "admin", "assistant", "clerk", "receptionist", "secretary",
     "office", "document", "filing", "paperwork", "correspondence", "data entry",
     "typing", "word processing", "spreadsheet", "scheduling", "calendar", "meeting",
     "minute taking", "phone", "email", "customer service", "support", "clerical",
     "organization"])]

/-- The static role table `key_exact_matches`. -/
def key_exact_matches : List (String × List String) :=
  [("java developer", ["java", "core java"]),
   ("python developer", ["python", "coding assessment for python"]),
   ("data scientist", ["data science", "machine learning", "analytics"]),
   ("sales representative", ["sales aptitude", "sales"]),
   ("project manager", ["project management", "leadership"]),
   ("business analyst", ["business analyst", "requirements analysis"]),
   ("ux designer", ["ux design", "user experience"]),
   ("database administrator", ["database", "sql"]),
   ("front end developer", ["front-end", "html", "css", "javascript"]),
   ("mobile developer", ["mobile", "ios", "android", "react native", "flutter"]),
   ("bank assistant",
    ["administrative", "customer service", "bank", "excel", "numerical", "verbal",
     "clerical"]),
   ("administrative assistant",
    ["administrative", "office", "clerical", "customer service", "excel", "verbal"]),
   ("bank clerk",
    ["bank", "administrative", "numerical", "clerical", "excel", "data entry"]),
   ("icici bank",
    ["bank", "financial", "administrative", "customer service", "excel", "numerical"])]

/-- The per-query category match counts `job_categories`: each
category with at least one keyword occurring (as a substring) in the
lower-cased query, with its match count. -/
def jobCategories (jd_lower : String) : List (String × ℕ) :=
  skill_categories.filterMap (fun p =>
    let n := p.2.countP (fun kw => strContains jd_lower kw)
    if 0 < n then some (p.1, n) else none)

/-- The record text used for boosting:
`f"{name} {description} {skills}"`, each field lower-cased. -/
def assessmentText (a : Assessment) : String :=
  strLower a.name ++ " " ++ strLower a.description ++ " " ++ strLower a.skills

/-- The additive `boost` computed for one record (lines 191-252):
lexical term overlap, category keyword overlap, verbatim category
names, role-specific matches, minus the banking/administrative versus
programming domain penalty. -/
def computeBoost (jd_lower : String) (job_terms : List String)
    (jobCats : List (String × ℕ)) (a : Assessment) : ℚ :=
  let text := assessmentText a
  let name := strLower a.name
  let term_matches := job_terms.countP (fun t => 3 < t.length && strContains text t)
  let b1 : ℚ := term_matches * (0.02 : ℚ)
  let b2 : ℚ := jobCats.foldl
    (fun acc p =>
      match skill_categories.find? (fun q => q.1 = p.1) with
      | some q =>
        let catScore : ℚ := (q.2.countP (fun kw => strContains text kw)) * (0.05 : ℚ)
        acc + catScore * ((p.2 : ℚ) / (q.2.length : ℚ))
      | none => acc)
    0
  let b3 : ℚ := (jobCats.countP (fun p => strContains text p.1)) * (0.3 : ℚ)
  let b4 : ℚ := key_exact_matches.foldl
    (fun acc p =>
      if strContains jd_lower p.1 then
        acc + (p.2.countP (fun term => strContains text term)) * (0.5 : ℚ)
      else acc)
    0
  let penalty : ℚ :=
    if (strContains jd_lower "bank" || strContains jd_lower "administrative"
        || strContains jd_lower "admin" || strContains jd_lower "assistant"
        || strContains jd_lower "clerk")
       && (strContains name "python" || strContains name "java"
           || strContains name "coding" || strContains name "programming"
           || strContains name "developer") then (2.0 : ℚ)
    else 0
  b1 + b2 + b3 + b4 - penalty

/-! ## Ranker/Filter (`get_recommendations`, lines 257-295) -/

/-- Stable insertion of an `(index, score)` pair into a
descending-sorted list: the new element goes before the first element
whose score does not exceed it. -/
def insertDesc (x : ℕ × ℚ) : List (ℕ × ℚ) → List (ℕ × ℚ)
  | [] => [x]
  | y :: ys => if y.2 ≤ x.2 then x :: y :: ys else y :: insertDesc x ys

/-- Source `similarities.sort(key=lambda x: x[1], reverse=True)`: Python's
sort is stable, and a stable descending sort is extensionally unique,
so stable insertion sort computes exactly the sorted list Python
produces (descending scores, ties in original order). -/
def sortDesc : List (ℕ × ℚ) → List (ℕ × ℚ)
  | [] => []
  | x :: xs => insertDesc x (sortDesc xs)

/-- Source `max([score for _, score in similarities]) if similarities else 1`. -/
def maxScoreOf : List (ℕ × ℚ) → ℚ
  | [] => 1
  | x :: xs => xs.foldl (fun m p => max m p.2) x.2

/-- The three `continue` filters (lines 268-273), as "the record is
kept".  `test_type` is skipped when falsy (absent or the empty
string); the boolean filters compare `assessment.get(...)` (which is
`None` when the key is missing) for exact equality. -/
def passesFilters (test_type : Option String) (remote_available adaptive_testing : Option Bool)
    (a : Assessment) : Bool :=
  (match test_type with
   | none => true
   | some t => if t = "" then true else a.type = t)
  && (match remote_available with
      | none => true
      | some b => a.remote_available = some b)
  && (match adaptive_testing with
      | none => true
      | some b => a.adaptive_testing = some b)

/-- The per-query pipeline up to the boosted score list: enumerate raw
cosine scores, then add each record's boost (lines 152 and 191-255). -/
def boostedSimilarities (assessments : List Assessment) (rawScores : List ℚ)
    (job_description : String) : List (ℕ × ℚ) :=
  let jd_lower := strLower job_description
  let job_terms := (splitWs jd_lower).dedup
  let jobCats := jobCategories jd_lower
  let similarities := (List.range assessments.length).map (fun i => (i, rawScores.getD i 0))
  similarities.map (fun p =>
    (p.1, p.2 + computeBoost jd_lower job_terms jobCats (assessments.getD p.1 default)))

/-- The selection loop (lines 264-284): walk the sorted list, skip
filtered records, attach the normalized score, and stop once `top_k`
records have been collected (the `break` fires after the append, so
`top_k = 0` still emits one record).  `cnt` is `len(recommendations)`
so far. -/
def selectRecs (assessments : List Assessment) (max_score : ℚ) (top_k : ℕ)
    (test_type : Option String) (remote_available adaptive_testing : Option Bool)
    (cnt : ℕ) : List (ℕ × ℚ) → List ScoredAssessment
  | [] => []
  | p :: rest =>
    let a := assessments.getD p.1 default
    if passesFilters test_type remote_available adaptive_testing a then
      let sc : ℚ := if 0 < max_score then p.2 / max_score else 0
      if top_k ≤ cnt + 1 then [mkScored a sc]
      else mkScored a sc
        :: selectRecs assessments max_score top_k test_type remote_available
             adaptive_testing (cnt + 1) rest
    else selectRecs assessments max_score top_k test_type remote_available
           adaptive_testing cnt rest

/-- The boosted similarity list after
`similarities.sort(key=lambda x: x[1], reverse=True)` (line 258). -/
def sortedSimilarities (assessments : List Assessment) (rawScores : List ℚ)
    (job_description : String) : List (ℕ × ℚ) :=
  sortDesc (boostedSimilarities assessments rawScores job_description)

/-- Source `NLPProcessor.get_recommendations`.  `rawScores` stands for the
cosine-similarity row `similarity_scores` (see the header comment);
everything after it is translated from the source: boost, stable
descending sort, `max_score`, the filter/normalize/truncate loop, and
the non-empty-catalog fallback (lines 286-292). -/
def get_recommendations (assessments : List Assessment) (rawScores : List ℚ)
    (job_description : String) (top_k : ℕ := 10)
    (test_type : Option String := none) (remote_available : Option Bool := none)
    (adaptive_testing : Option Bool := none) : List ScoredAssessment :=
  let sorted := sortedSimilarities assessments rawScores job_description
  let max_score := maxScoreOf sorted
  let recommendations :=
    selectRecs assessments max_score top_k test_type remote_available adaptive_testing
      0 sorted
  if recommendations.isEmpty && !assessments.isEmpty then
    [mkScored (assessments.headD default) 0]
  else recommendations

/-! ## HTTP layer (`app.py`, `/v1/recommend`) -/

/-- The `/v1/recommend` endpoint (`assignment_recommend`): 503 when
the processor failed to initialize, 400 when the query is empty
(`if not query`), 404 when no recommendations come back, otherwise the
records.  The empty-query check runs before `get_recommendations` is
invoked, which is why the result for an empty query does not depend on
`rawScores` or on the catalog. -/
def assignment_recommend (initialized : Bool) (assessments : List Assessment)
    (rawScores : List ℚ) (query : String) : Except ℕ (List ScoredAssessment) :=
  if !initialized then .error 503
  else if query = "" then .error 400
  else
    let recs := get_recommendations assessments rawScores query 10 none none none
    if recs.isEmpty then .error 404 else .ok recs

/-! ## Statement-level auxiliaries and concrete inputs -/

/-- The order a stable descending sort guarantees between an earlier
and a later element: strictly larger score, or equal score and earlier
original catalog position. -/
def rankRel (a b : ℕ × ℚ) : Prop :=
  b.2 < a.2 ∨ (a.2 = b.2 ∧ a.1 < b.1)

/-- The replacement step as the specification words it: every
character that is neither alphanumeric nor whitespace becomes a space
(for comparison with `replaceSpecial`, which keeps underscores because
`\w` matches them). -/
def replaceSpecialClaim (s : String) : String :=
  ⟨s.toList.map (fun c => if c.isAlphanum || c.isWhitespace then c else ' ')⟩

/-- A minimal record whose name triggers the programming-name penalty. -/
def recPythonName : Assessment := { name := "python" }

/-- A minimal record whose name matches the administrative category. -/
def recCustomerService : Assessment := { name := "customer service" }

/-- A minimal record with an explicit `remote_available` value. -/
def recAlpha : Assessment := { name := "alpha", remote_available := some false }

/-- A crafted catalog record with empty name, description and type
whose skills text contains two of the "administrative assistant" role
match terms ("excel" and "verbal"): under the query
"administrative assistant" it receives a role boost of `2 * 0.5 = 1`
plus a programming-category crumb of `1/680` (the keyword "r" occurs
in "verbal"), for a total adjusted score of `681/680`, strictly above
the Customer Service record's `8627/17000`. -/
def craftedAdminRecord : Assessment := { skills := "excel verbal" }

/-- A catalog containing the sample "Coding Assessment for Python" and
"Customer Service Assessment" records (catalog positions 4 and 6 of
the built-in sample catalog) followed by ten copies of
`craftedAdminRecord`. -/
def c5CexCatalog : List Assessment :=
  sampleAssessments.getD 4 default :: sampleAssessments.getD 6 default
    :: List.replicate 10 craftedAdminRecord

/-! ## Helper lemmas -/

attribute [local semireducible] Rat.add Rat.mul Rat.sub Rat.ofScientific Rat.inv

theorem mem_insertDesc {x y : ℕ × ℚ} {l : List (ℕ × ℚ)} :
    y ∈ insertDesc x l ↔ y = x ∨ y ∈ l := by
  induction l with
  | nil => simp [insertDesc]
  | cons z zs ih =>
    by_cases h : z.2 ≤ x.2
    · simp [insertDesc, h]
    · simp only [insertDesc, if_neg h, List.mem_cons, ih]
      tauto

theorem mem_sortDesc {y : ℕ × ℚ} {l : List (ℕ × ℚ)} :
    y ∈ sortDesc l ↔ y ∈ l := by
  induction l with
  | nil => simp [sortDesc]
  | cons z zs ih => simp [sortDesc, mem_insertDesc, ih]

theorem length_insertDesc (x : ℕ × ℚ) (l : List (ℕ × ℚ)) :
    (insertDesc x l).length = l.length + 1 := by
  induction l with
  | nil => rfl
  | cons z zs ih =>
    by_cases h : z.2 ≤ x.2
    · simp [insertDesc, h]
    · simp [insertDesc, h, ih]

theorem length_sortDesc (l : List (ℕ × ℚ)) :
    (sortDesc l).length = l.length := by
  induction l with
  | nil => rfl
  | cons z zs ih => simp [sortDesc, length_insertDesc, ih]

theorem pairwise_insertDesc {x : ℕ × ℚ} {l : List (ℕ × ℚ)}
    (h : l.Pairwise rankRel) (hx : ∀ y ∈ l, x.1 < y.1) :
    (insertDesc x l).Pairwise rankRel := by
  induction l with
  | nil => simp [insertDesc, List.Pairwise]
  | cons z zs ih =>
    rcases List.pairwise_cons.mp h with ⟨hz, hzs⟩
    by_cases hc : z.2 ≤ x.2
    · rw [insertDesc, if_pos hc]
      refine List.pairwise_cons.mpr ⟨?_, h⟩
      intro y hy
      rcases List.mem_cons.mp hy with rfl | hmem
      · rcases lt_or_eq_of_le hc with hlt | heq
        · exact Or.inl hlt
        · exact Or.inr ⟨heq.symm, hx y (List.mem_cons_self _ _)⟩
      · rcases hz y hmem with hlt | ⟨heq, _⟩
        · exact Or.inl (lt_of_lt_of_le hlt hc)
        · rcases lt_or_eq_of_le hc with hlt2 | heq2
          · exact Or.inl (heq ▸ hlt2)
          · exact Or.inr ⟨heq2.symm.trans heq, hx y (List.mem_cons_of_mem _ hmem)⟩
    · rw [insertDesc, if_neg hc]
      refine List.pairwise_cons.mpr ⟨?_, ih hzs (fun y hy => hx y (List.mem_cons_of_mem _ hy))⟩
      intro y hy
      rcases mem_insertDesc.mp hy with rfl | hmem
      · exact Or.inl (lt_of_not_le hc)
      · exact hz y hmem

theorem pairwise_sortDesc {l : List (ℕ × ℚ)}
    (h : l.Pairwise (fun a b => a.1 < b.1)) :
    (sortDesc l).Pairwise rankRel := by
  induction l with
  | nil => simp [sortDesc, List.Pairwise]
  | cons z zs ih =>
    rcases List.pairwise_cons.mp h with ⟨hz, hzs⟩
    exact pairwise_insertDesc (ih hzs) (fun y hy => hz y (mem_sortDesc.mp hy))

theorem length_boostedSimilarities (A : List Assessment) (raws : List ℚ) (jd : String) :
    (boostedSimilarities A raws jd).length = A.length := by
  simp [boostedSimilarities]

theorem length_sortedSimilarities (A : List Assessment) (raws : List ℚ) (jd : String) :
    (sortedSimilarities A raws jd).length = A.length := by
  rw [sortedSimilarities, length_sortDesc, length_boostedSimilarities]

theorem get_boostedSimilarities (A : List Assessment) (raws : List ℚ) (jd : String)
    (i : ℕ) (h : i < (boostedSimilarities A raws jd).length) :
    (boostedSimilarities A raws jd).get ⟨i, h⟩
      = (i, raws.getD i 0
          + computeBoost (strLower jd) ((splitWs (strLower jd)).dedup)
              (jobCategories (strLower jd)) (A.getD i default)) := by
  simp [boostedSimilarities, List.get_map, List.get_range]

theorem fst_lt_of_mem_boostedSimilarities {A : List Assessment} {raws : List ℚ}
    {jd : String} {p : ℕ × ℚ} (h : p ∈ boostedSimilarities A raws jd) :
    p.1 < A.length := by
  simp only [boostedSimilarities, List.mem_map, List.mem_range] at h
  rcases h with ⟨q, ⟨i, hi, rfl⟩, rfl⟩
  simpa using hi

theorem pairwise_fst_boostedSimilarities (A : List Assessment) (raws : List ℚ)
    (jd : String) :
    (boostedSimilarities A raws jd).Pairwise (fun a b => a.1 < b.1) := by
  simp only [boostedSimilarities]
  refine (List.pairwise_map).mpr ?_
  refine (List.pairwise_map).mpr ?_
  simpa using List.pairwise_lt_range A.length

theorem pairwise_rankRel_sortedSimilarities (A : List Assessment) (raws : List ℚ)
    (jd : String) :
    (sortedSimilarities A raws jd).Pairwise rankRel :=
  pairwise_sortDesc (pairwise_fst_boostedSimilarities A raws jd)

theorem getD_mem_of_lt {α : Type} {l : List α} {n : ℕ} {d : α} (h : n < l.length) :
    l.getD n d ∈ l := by
  rw [List.getD_eq_getD_get?, List.get?_eq_get h]
  exact List.get_mem l n h

theorem mem_selectRecs {A : List Assessment} {ms : ℚ} {tk : ℕ}
    {tt : Option String} {ra ad : Option Bool} {r : ScoredAssessment} :
    ∀ {l : List (ℕ × ℚ)} {cnt : ℕ}, r ∈ selectRecs A ms tk tt ra ad cnt l →
    ∃ p ∈ l, passesFilters tt ra ad (A.getD p.1 default) = true ∧
      r = mkScored (A.getD p.1 default) (if 0 < ms then p.2 / ms else 0) := by
  intro l
  induction l with
  | nil => intro cnt h; simp [selectRecs] at h
  | cons p rest ih =>
    intro cnt h
    rw [selectRecs] at h
    by_cases hp : passesFilters tt ra ad (A.getD p.1 default) = true
    · rw [if_pos hp] at h
      by_cases hbrk : tk ≤ cnt + 1
      · rw [if_pos hbrk] at h
        rcases List.mem_singleton.mp h with rfl
        exact ⟨p, List.mem_cons_self _ _, hp, rfl⟩
      · rw [if_neg hbrk] at h
        rcases List.mem_cons.mp h with rfl | hmem
        · exact ⟨p, List.mem_cons_self _ _, hp, rfl⟩
        · rcases ih hmem with ⟨q, hq, hqp, hqr⟩
          exact ⟨q, List.mem_cons_of_mem _ hq, hqp, hqr⟩
    · rw [if_neg hp] at h
      rcases ih h with ⟨q, hq, hqp, hqr⟩
      exact ⟨q, List.mem_cons_of_mem _ hq, hqp, hqr⟩

theorem selectRecs_eq_nil {A : List Assessment} {ms : ℚ} {tk : ℕ}
    {tt : Option String} {ra ad : Option Bool} {l : List (ℕ × ℚ)} {cnt : ℕ}
    (hall : ∀ p ∈ l, passesFilters tt ra ad (A.getD p.1 default) = false) :
    selectRecs A ms tk tt ra ad cnt l = [] := by
  cases hsel : selectRecs A ms tk tt ra ad cnt l with
  | nil => rfl
  | cons r rs =>
    exfalso
    have hr : r ∈ selectRecs A ms tk tt ra ad cnt l := by
      rw [hsel]; exact List.mem_cons_self _ _
    rcases mem_selectRecs hr with ⟨p, hp, hpass, _⟩
    rw [hall p hp] at hpass
    cases hpass

theorem selectRecs_length_le {A : List Assessment} {ms : ℚ} {tk : ℕ}
    {tt : Option String} {ra ad : Option Bool} :
    ∀ {l : List (ℕ × ℚ)} {cnt : ℕ}, cnt < tk →
    (selectRecs A ms tk tt ra ad cnt l).length + cnt ≤ tk := by
  intro l
  induction l with
  | nil =>
    intro cnt h
    simp only [selectRecs, List.length_nil, Nat.zero_add]
    exact le_of_lt h
  | cons p rest ih =>
    intro cnt hcnt
    simp only [selectRecs]
    by_cases hp : passesFilters tt ra ad (A.getD p.1 default) = true
    · rw [if_pos hp]
      by_cases hbrk : tk ≤ cnt + 1
      · rw [if_pos hbrk]
        simp only [List.length_singleton]
        omega
      · rw [if_neg hbrk]
        have := @ih (cnt + 1) (lt_of_not_le hbrk)
        simp only [List.length_cons]
        omega
    · rw [if_neg hp]
      exact ih hcnt

theorem selectRecs_noFilter {A : List Assessment} {ms : ℚ} {tk : ℕ} :
    ∀ {l : List (ℕ × ℚ)} {cnt : ℕ}, cnt < tk → l.length + cnt ≤ tk →
    selectRecs A ms tk none none none cnt l
      = l.map (fun p => mkScored (A.getD p.1 default) (if 0 < ms then p.2 / ms else 0)) := by
  intro l
  induction l with
  | nil => intro cnt _ _; rfl
  | cons p rest ih =>
    intro cnt hcnt hlen
    rw [selectRecs]
    have hp : passesFilters none none none (A.getD p.1 default) = true := rfl
    rw [if_pos hp]
    by_cases hbrk : tk ≤ cnt + 1
    · have hrest : rest = [] := by
        have h1 : rest.length + (cnt + 1) ≤ tk := by
          simpa [Nat.add_comm, Nat.add_left_comm, Nat.add_assoc] using hlen
        have h2 : rest.length = 0 := by omega
        exact List.length_eq_zero.mp h2
      subst hrest
      rw [if_pos hbrk]
      rfl
    · rw [if_neg hbrk]
      rw [ih (lt_of_not_le hbrk) (by simpa [Nat.add_comm, Nat.add_left_comm, Nat.add_assoc] using hlen)]
      rfl

theorem strContains_empty_haystack {pat : String} (h : pat ≠ "") :
    strContains "" pat = false := by
  have hl : pat.toList ≠ [] := by
    intro hc
    apply h
    cases pat with
    | mk data => simpa [String.toList] using congrArg String.mk hc
  rw [strContains]
  show pat.toList.isEmpty = false
  simpa using hl

theorem jobCategories_empty : jobCategories "" = [] := by decide

theorem computeBoost_empty_query (a : Assessment) :
    computeBoost "" [] [] a = 0 := by
  rw [computeBoost]
  have hroles : ∀ ps : List (String × List String), (∀ p ∈ ps, p.1 ≠ "") →
      ∀ acc : ℚ, ps.foldl
        (fun acc p =>
          if strContains "" p.1 then
            acc + (p.2.countP (fun term => strContains (assessmentText a) term)) * (0.5 : ℚ)
          else acc) acc = acc := by
    intro ps
    induction ps with
    | nil => intro _ acc; rfl
    | cons p pr ih =>
      intro hne acc
      rw [List.foldl_cons, if_neg]
      · exact ih (fun q hq => hne q (List.mem_cons_of_mem _ hq)) acc
      · rw [strContains_empty_haystack (hne p (List.mem_cons_self _ _))]
        simp
    
  have h1 : strContains "" "bank" = false := by decide
  have h2 : strContains "" "administrative" = false := by decide
  have h3 : strContains "" "admin" = false := by decide
  have h4 : strContains "" "assistant" = false := by decide
  have h5 : strContains "" "clerk" = false := by decide
  have hkeys : ∀ p ∈ key_exact_matches, p.1 ≠ "" := by decide
  simp only [List.countP_nil, List.foldl_nil, h1, h2, h3, h4, h5,
    hroles key_exact_matches hkeys]
  norm_num

theorem maxScoreOf_zero {l : List (ℕ × ℚ)} (hne : l ≠ [])
    (hz : ∀ p ∈ l, p.2 = 0) : maxScoreOf l = 0 := by
  cases l with
  | nil => exact absurd rfl hne
  | cons x xs =>
    rw [maxScoreOf]
    have hx : x.2 = 0 := hz x (List.mem_cons_self _ _)
    have : ∀ ys : List (ℕ × ℚ), (∀ p ∈ ys, p.2 = 0) → ∀ m : ℚ, m = 0 →
        ys.foldl (fun m p => max m p.2) m = 0 := by
      intro ys
      induction ys with
      | nil => intro _ m hm; simpa using hm
      | cons y yr ih =>
        intro hys m hm
        rw [List.foldl_cons]
        refine ih (fun q hq => hys q (List.mem_cons_of_mem _ hq)) _ ?_
        rw [hm, hys y (List.mem_cons_self _ _)]
        simp
    exact this xs (fun q hq => hz q (List.mem_cons_of_mem _ hq)) x.2 hx

theorem getD_zero_of_all_zero {raws : List ℚ} (hz : ∀ s ∈ raws, s = 0) (i : ℕ) :
    raws.getD i 0 = 0 := by
  by_cases h : i < raws.length
  · exact hz _ (getD_mem_of_lt h)
  · rw [List.getD_eq_default]
    omega

/-! ## Claim theorems -/

set_option maxRecDepth 200000

/-- C1: the claim states that every similarity score attached to a
record returned by `get_recommendations` lies in `[0,1]`.  The code
violates this (a `code_bug`: the comment above the normalization,
"normalize to 0-1 range", and the specification both demand `[0,1]`):
for the catalog `[recPythonName, recCustomerService]` and the query
"assistant clerk" (whose tokens are outside the fitted vocabulary, so
both raw cosine scores are 0, as the first conjunct certifies), the
domain penalty drives the python record's adjusted score to
`1/680 - 2 < 0`, and dividing by the positive maximum returns it with
similarity score `-11325/31 < 0`. -/
theorem C1_returned_score_below_zero :
    queryVectorIsZero [recPythonName, recCustomerService] "assistant clerk" = true
    ∧ (get_recommendations [recPythonName, recCustomerService] [0, 0] "assistant clerk"
        10 none none none).map (fun r => (r.assessment.name, r.similarity_score))
      = [("customer service", 1), ("python", -11325/31)]
    ∧ ((-11325 : ℚ)/31 < 0 ∧ ¬((0 : ℚ) ≤ -11325/31)) := by
  refine ⟨by decide, by decide, by norm_num⟩

/-- C4: the claim states that for a record whose name contains a
trigger substring, the text the TF-IDF vectorizer is fitted on
includes the synthetic category tags.  The code violates this (a
`code_bug`): `self.processed_assessments.append(processed_text)` runs
before `processed_text += <tags>`, so the stored list — the one passed
to `fit_transform` — never contains the tags.  For the sample
"Coding Assessment for Python" record the fitted text lacks
"python_developer" while the augmented loop-local value contains it. -/
theorem C4_tags_never_reach_vectorizer :
    strContains ((processed_assessments [sampleAssessments.getD 4 default]).headD "")
      "python_developer" = false
    ∧ strContains (processedTextWithTags (sampleAssessments.getD 4 default))
      "python_developer" = true := by
  refine ⟨by decide, by decide⟩

/-- C10 counterexample: the claim states that the normalizer replaces
every character that is neither alphanumeric nor whitespace with a
space.  The underscore is neither alphanumeric nor whitespace, yet
`re.sub(r'[^\w\s]', ' ', ...)` preserves it because `\w` matches it:
on "a_b" the code keeps the underscore while the claim's reading
would produce "a b". -/
theorem C10_counterexample_underscore :
    replaceSpecial "a_b" = "a_b"
    ∧ _preprocess_text "a_b" = "a_b"
    ∧ replaceSpecialClaim "a_b" = "a b"
    ∧ replaceSpecial "a_b" ≠ replaceSpecialClaim "a_b" := by
  refine ⟨by decide, by decide, by decide, by decide⟩

/-- C2 counterexample: the claim states that no record violating an
active filter constraint is ever returned.  With the one-record
catalog `[recAlpha]` (whose `remote_available` is `False`), the
filter `remote_available=True`, and the out-of-vocabulary query "zz"
(raw score 0, certified by the first conjunct), every record is
filtered out and the fallback returns `recAlpha` — which violates the
active constraint, as the last conjunct certifies. -/
theorem C2_counterexample_fallback_violates_filter :
    queryVectorIsZero [recAlpha] "zz" = true
    ∧ get_recommendations [recAlpha] [0] "zz" 10 none (some true) none
      = [mkScored recAlpha 0]
    ∧ passesFilters none (some true) none recAlpha = false := by
  refine ⟨by decide, by decide, by decide⟩

/-- C6 counterexample: the claim states that calling the query
operation with an empty string is rejected with an error before any
vector computation and never returns a list of records.  The engine
function `get_recommendations` itself performs no such rejection: on
an empty query (which preprocesses to the empty string and projects
to the zero vector) it returns a normal, non-empty record list with
score 0. -/
theorem C6_counterexample_engine_accepts_empty_query :
    queryVectorIsZero [recAlpha] "" = true
    ∧ get_recommendations [recAlpha] [0] "" 10 none none none
      = [mkScored recAlpha 0]
    ∧ (get_recommendations [recAlpha] [0] "" 10 none none none).length = 1 := by
  refine ⟨by decide, by decide, by decide⟩

/-- C8 counterexample: the claim states that `get_recommendations`
returns at least 1 and at most `top_k` records.  With `top_k = 0` the
`break` only fires after the first append, so one record is returned,
exceeding `top_k`. -/
theorem C8_counterexample_topk_zero :
    (get_recommendations [recAlpha] [0] "zz" 0 none none none).length = 1
    ∧ ¬((get_recommendations [recAlpha] [0] "zz" 0 none none none).length ≤ 0) := by
  refine ⟨by decide, by decide⟩

/-- C7: constructing the engine on an empty catalog, or on any catalog
whose processed texts yield an empty vocabulary, raises an
initialization error (`fit_transform` raises `ValueError` on an empty
vocabulary and `__init__` re-raises) instead of producing a usable
engine.  Holds for every stop-word list. -/
theorem C7_empty_vocabulary_init_error (stopWords : List String)
    (A : List Assessment)
    (h : A = [] ∨ vocabulary stopWords (processed_assessments A) = []) :
    NLPProcessor.init stopWords A = .error "empty vocabulary" := by
  rcases h with rfl | hv
  · rfl
  · rw [NLPProcessor.init, hv]
    rfl

/-- C7 witness: the empty catalog with the empty stop-word list. -/
theorem C7_empty_vocabulary_init_error_witness :
    (([] : List Assessment) = [] ∨ vocabulary [] (processed_assessments []) = [])
    ∧ NLPProcessor.init [] [] = .error "empty vocabulary" :=
  ⟨Or.inl rfl, C7_empty_vocabulary_init_error [] [] (Or.inl rfl)⟩

/-- C2 amended: every record returned through the filtering loop
satisfies all active filter constraints; the only exception is the
non-empty-catalog fallback, which returns the catalog's first record
with score 0 even when it violates an active constraint (see the
counterexample). -/
theorem C2_filter_correctness_amended (A : List Assessment) (raws : List ℚ)
    (jd : String) (tk : ℕ) (tt : Option String) (ra ad : Option Bool)
    (r : ScoredAssessment) (hr : r ∈ get_recommendations A raws jd tk tt ra ad) :
    passesFilters tt ra ad r.assessment = true
    ∨ get_recommendations A raws jd tk tt ra ad = [mkScored (A.headD default) 0] := by
  simp only [get_recommendations] at hr ⊢
  by_cases hc : ((selectRecs A (maxScoreOf (sortedSimilarities A raws jd)) tk tt ra ad 0
      (sortedSimilarities A raws jd)).isEmpty && !A.isEmpty) = true
  · rw [if_pos hc] at hr ⊢
    exact Or.inr rfl
  · rw [if_neg hc] at hr
    rcases mem_selectRecs hr with ⟨p, _, hpass, rfl⟩
    exact Or.inl hpass

/-- C2 witness: a passing record under an active boolean filter. -/
theorem C2_filter_correctness_amended_witness :
    mkScored recAlpha 0 ∈ get_recommendations [recAlpha] [0] "zz" 10 none (some false) none
    ∧ (passesFilters none (some false) none (mkScored recAlpha 0).assessment = true
       ∨ get_recommendations [recAlpha] [0] "zz" 10 none (some false) none
         = [mkScored (([recAlpha] : List Assessment).headD default) 0]) :=
  ⟨by decide,
   C2_filter_correctness_amended [recAlpha] [0] "zz" 10 none (some false) none
     (mkScored recAlpha 0) (by decide)⟩

/-- C3: for every non-empty catalog, if the active filters exclude
every catalog record, `get_recommendations` returns exactly one
result: the first catalog record carrying similarity score 0. -/
theorem C3_fallback_first_record (A : List Assessment) (raws : List ℚ)
    (jd : String) (tk : ℕ) (tt : Option String) (ra ad : Option Bool)
    (hA : A ≠ []) (hall : ∀ a ∈ A, passesFilters tt ra ad a = false) :
    get_recommendations A raws jd tk tt ra ad = [mkScored (A.headD default) 0] := by
  have hsel : selectRecs A (maxScoreOf (sortedSimilarities A raws jd)) tk tt ra ad 0
      (sortedSimilarities A raws jd) = [] := by
    apply selectRecs_eq_nil
    intro p hp
    have hp2 : p ∈ sortDesc (boostedSimilarities A raws jd) := hp
    have hmem : p ∈ boostedSimilarities A raws jd := mem_sortDesc.mp hp2
    have hlt : p.1 < A.length := fst_lt_of_mem_boostedSimilarities hmem
    exact hall _ (getD_mem_of_lt hlt)
  simp only [get_recommendations]
  rw [hsel]
  cases A with
  | nil => exact absurd rfl hA
  | cons a as => simp

/-- C3 witness: a one-record catalog fully excluded by the
`remote_available=True` filter. -/
theorem C3_fallback_first_record_witness :
    (([recAlpha] : List Assessment) ≠ []
     ∧ ∀ a ∈ ([recAlpha] : List Assessment), passesFilters none (some true) none a = false)
    ∧ get_recommendations [recAlpha] [0] "zz" 10 none (some true) none
      = [mkScored (([recAlpha] : List Assessment).headD default) 0] :=
  ⟨⟨by decide, by decide⟩,
   C3_fallback_first_record [recAlpha] [0] "zz" 10 none (some true) none
     (by decide) (by decide)⟩

/-- C8 amended: for every non-empty catalog and every `top_k` of at
least 1, `get_recommendations` returns between 1 and `top_k` records
(for `top_k = 0` the loop still returns one record, see the
counterexample). -/
theorem C8_result_count_amended (A : List Assessment) (raws : List ℚ)
    (jd : String) (tk : ℕ) (tt : Option String) (ra ad : Option Bool)
    (hA : A ≠ []) (htk : 1 ≤ tk) :
    1 ≤ (get_recommendations A raws jd tk tt ra ad).length
    ∧ (get_recommendations A raws jd tk tt ra ad).length ≤ tk := by
  have hAe : A.isEmpty = false := by
    cases A with
    | nil => exact absurd rfl hA
    | cons a as => rfl
  simp only [get_recommendations]
  by_cases hc : ((selectRecs A (maxScoreOf (sortedSimilarities A raws jd)) tk tt ra ad 0
      (sortedSimilarities A raws jd)).isEmpty && !A.isEmpty) = true
  · rw [if_pos hc]
    exact ⟨le_refl 1, htk⟩
  · rw [if_neg hc]
    have hup := @selectRecs_length_le A (maxScoreOf (sortedSimilarities A raws jd)) tk tt ra ad
      (sortedSimilarities A raws jd) 0 (lt_of_lt_of_le Nat.zero_lt_one htk)
    have hne : (selectRecs A (maxScoreOf (sortedSimilarities A raws jd)) tk tt ra ad 0
        (sortedSimilarities A raws jd)).isEmpty = false := by
      cases hsel : (selectRecs A (maxScoreOf (sortedSimilarities A raws jd)) tk tt ra ad 0
          (sortedSimilarities A raws jd)).isEmpty
      · rfl
      · exact absurd (by rw [hsel, hAe]; rfl) hc
    constructor
    · have := List.isEmpty_eq_false.mp hne
      have hpos := List.length_pos.mpr this
      omega
    · omega

/-- C8 witness: one record back from a one-record catalog with
`top_k = 10`. -/
theorem C8_result_count_amended_witness :
    (([recAlpha] : List Assessment) ≠ [] ∧ 1 ≤ 10)
    ∧ 1 ≤ (get_recommendations [recAlpha] [0] "zz" 10 none none none).length
    ∧ (get_recommendations [recAlpha] [0] "zz" 10 none none none).length ≤ 10 :=
  ⟨⟨by decide, by decide⟩,
   C8_result_count_amended [recAlpha] [0] "zz" 10 none none none (by decide) (by decide)⟩

/-- C9: `get_recommendations` is a pure function of its arguments, so
two calls with identical query, scores, `top_k` and filters against
the same catalog return identical ordered lists; and in the sorted
similarity list the engine ranks from, any two entries with equal
adjusted scores appear in the order of their original catalog
positions (stability of the descending sort). -/
theorem C9_deterministic_and_stable_ties (A : List Assessment) (raws : List ℚ)
    (jd : String) (tk : ℕ) (tt : Option String) (ra ad : Option Bool)
    (p q : ℕ) (hp : p < (sortedSimilarities A raws jd).length)
    (hq : q < (sortedSimilarities A raws jd).length) (hpq : p < q)
    (heq : ((sortedSimilarities A raws jd).get ⟨p, hp⟩).2
         = ((sortedSimilarities A raws jd).get ⟨q, hq⟩).2) :
    get_recommendations A raws jd tk tt ra ad = get_recommendations A raws jd tk tt ra ad
    ∧ ((sortedSimilarities A raws jd).get ⟨p, hp⟩).1
      < ((sortedSimilarities A raws jd).get ⟨q, hq⟩).1 := by
  refine ⟨rfl, ?_⟩
  have hpw := pairwise_rankRel_sortedSimilarities A raws jd
  have hrel := List.pairwise_iff_get.mp hpw ⟨p, hp⟩ ⟨q, hq⟩ hpq
  rcases hrel with hlt | ⟨_, hidx⟩
  · rw [heq] at hlt
    exact absurd hlt (lt_irrefl _)
  · exact hidx

/-- C9 witness: a two-record catalog where both adjusted scores are 0. -/
theorem C9_deterministic_and_stable_ties_witness :
    ∃ hp : 0 < (sortedSimilarities [recAlpha, recPythonName] [0, 0] "zz").length,
    ∃ hq : 1 < (sortedSimilarities [recAlpha, recPythonName] [0, 0] "zz").length,
      ((sortedSimilarities [recAlpha, recPythonName] [0, 0] "zz").get ⟨0, hp⟩).2
        = ((sortedSimilarities [recAlpha, recPythonName] [0, 0] "zz").get ⟨1, hq⟩).2
      ∧ ((sortedSimilarities [recAlpha, recPythonName] [0, 0] "zz").get ⟨0, hp⟩).1
        < ((sortedSimilarities [recAlpha, recPythonName] [0, 0] "zz").get ⟨1, hq⟩).1 := by
  refine ⟨by decide, by decide, by decide, ?_⟩
  exact (C9_deterministic_and_stable_ties [recAlpha, recPythonName] [0, 0] "zz"
    10 none none none 0 1 (by decide) (by decide) (by decide) (by decide)).2

/-- C6 amended: the HTTP endpoint rejects an empty query with a 400
error before invoking the engine (the result is `error 400` for every
raw-score row and catalog, showing no scoring is consulted), while
the engine function itself does not reject an empty query: called
directly it returns records, each carrying similarity score 0
(an empty query projects to the zero vector, so the true raw scores
are all 0, and no boost fires on an empty string). -/
theorem C6_empty_query_rejected_at_endpoint (A : List Assessment) (raws : List ℚ)
    (tk : ℕ) (hz : ∀ s ∈ raws, s = 0) (r : ScoredAssessment)
    (hr : r ∈ get_recommendations A raws "" tk none none none) :
    assignment_recommend true A raws "" = .error 400 ∧ r.similarity_score = 0 := by
  refine ⟨rfl, ?_⟩
  have hallz : ∀ p ∈ sortedSimilarities A raws "", p.2 = 0 := by
    intro p hp
    have hp2 : p ∈ sortDesc (boostedSimilarities A raws "") := hp
    have hmem : p ∈ boostedSimilarities A raws "" := mem_sortDesc.mp hp2
    simp only [boostedSimilarities, List.mem_map, List.mem_range] at hmem
    rcases hmem with ⟨q, ⟨i, hi, rfl⟩, rfl⟩
    show raws.getD i 0
        + computeBoost (strLower "") ((splitWs (strLower "")).dedup)
            (jobCategories (strLower "")) (A.getD i default) = 0
    have e1 : (splitWs (strLower "")).dedup = ([] : List String) := rfl
    have e0 : strLower "" = "" := rfl
    rw [e0] at e1 ⊢
    rw [e1, jobCategories_empty, computeBoost_empty_query, getD_zero_of_all_zero hz]
    norm_num
  simp only [get_recommendations] at hr
  by_cases hc : ((selectRecs A (maxScoreOf (sortedSimilarities A raws "")) tk none none none
      0 (sortedSimilarities A raws "")).isEmpty && !A.isEmpty) = true
  · rw [if_pos hc] at hr
    rcases List.mem_singleton.mp hr with rfl
    rfl
  · rw [if_neg hc] at hr
    rcases mem_selectRecs hr with ⟨p, hpmem, _, rfl⟩
    show (if 0 < maxScoreOf (sortedSimilarities A raws "") then
        p.2 / maxScoreOf (sortedSimilarities A raws "") else 0) = 0
    by_cases hS : sortedSimilarities A raws "" = []
    · rw [hS] at hpmem
      cases hpmem
    · rw [maxScoreOf_zero hS hallz]
      norm_num

/-- C6 witness: the endpoint rejects the empty query over the
one-record catalog while the engine returns the record with score 0. -/
theorem C6_empty_query_rejected_at_endpoint_witness :
    (∀ s ∈ ([0] : List ℚ), s = 0)
    ∧ mkScored recAlpha 0 ∈ get_recommendations [recAlpha] [0] "" 10 none none none
    ∧ (assignment_recommend true [recAlpha] [0] "" = .error 400
       ∧ (mkScored recAlpha 0).similarity_score = 0) :=
  ⟨by decide, by decide,
   C6_empty_query_rejected_at_endpoint [recAlpha] [0] 10 (by decide)
     (mkScored recAlpha 0) (by decide)⟩

theorem splitDropChars_nil (p : Char → Bool) (acc : List Char) :
    splitDropChars p acc [] = if acc.isEmpty then [] else [acc.reverse] := rfl

theorem splitDropChars_cons (p : Char → Bool) (acc : List Char) (c : Char) (cs : List Char) :
    splitDropChars p acc (c :: cs) =
      if p c then
        if acc.isEmpty then splitDropChars p [] cs
        else acc.reverse :: splitDropChars p [] cs
      else splitDropChars p (c :: acc) cs := rfl

theorem joinSpace_single (w : List Char) : joinSpace [w] = w := rfl

theorem joinSpace_cons2 (w w2 : List Char) (ws : List (List Char)) :
    joinSpace (w :: w2 :: ws) = w ++ ' ' :: joinSpace (w2 :: ws) := rfl

theorem replaceAllFuel_succ_cons (pat rep : List Char) (f : ℕ) (c : Char) (cs : List Char) :
    replaceAllFuel pat rep (f + 1) (c :: cs) =
      if pat ≠ [] && prefixOfChars pat (c :: cs) then
        rep ++ replaceAllFuel pat rep f (List.drop (pat.length - 1) cs)
      else c :: replaceAllFuel pat rep f cs := rfl

theorem mem_splitDropChars {p : Char → Bool} :
    ∀ {l : List Char} (acc : List Char), (∀ c ∈ acc, p c = false) →
    ∀ {w : List Char}, w ∈ splitDropChars p acc l →
    ∀ {c : Char}, c ∈ w → (c ∈ acc ∨ c ∈ l) ∧ p c = false := by
  intro l
  induction l with
  | nil =>
    intro acc hacc w hw c hc
    rw [splitDropChars_nil] at hw
    by_cases he : acc.isEmpty = true
    · rw [if_pos he] at hw
      cases hw
    · rw [if_neg he] at hw
      rcases List.mem_singleton.mp hw with rfl
      have : c ∈ acc := List.mem_reverse.mp hc
      exact ⟨Or.inl this, hacc c this⟩
  | cons d ds ih =>
    intro acc hacc w hw c hc
    rw [splitDropChars_cons] at hw
    by_cases hd : p d = true
    · rw [if_pos hd] at hw
      by_cases he : acc.isEmpty = true
      · rw [if_pos he] at hw
        have := ih [] (by intro c hc; cases hc) hw hc
        exact ⟨Or.inr (List.mem_cons_of_mem _ (this.1.resolve_left (fun h => by cases h))),
          this.2⟩
      · rw [if_neg he] at hw
        rcases List.mem_cons.mp hw with rfl | hw2
        · have : c ∈ acc := List.mem_reverse.mp hc
          exact ⟨Or.inl this, hacc c this⟩
        · have := ih [] (by intro c hc; cases hc) hw2 hc
          exact ⟨Or.inr (List.mem_cons_of_mem _ (this.1.resolve_left (fun h => by cases h))),
            this.2⟩
    · rw [if_neg hd] at hw
      have hacc2 : ∀ c ∈ d :: acc, p c = false := by
        intro c hc
        rcases List.mem_cons.mp hc with rfl | hmem
        · exact Bool.eq_false_iff.mpr hd
        · exact hacc c hmem
      have := ih (d :: acc) hacc2 hw hc
      rcases this with ⟨hin, hpc⟩
      rcases hin with hin | hin
      · rcases List.mem_cons.mp hin with rfl | hmem
        · exact ⟨Or.inr (List.mem_cons_self _ _), hpc⟩
        · exact ⟨Or.inl hmem, hpc⟩
      · exact ⟨Or.inr (List.mem_cons_of_mem _ hin), hpc⟩

theorem mem_joinSpace {c : Char} :
    ∀ {ws : List (List Char)}, c ∈ joinSpace ws → c = ' ' ∨ ∃ w ∈ ws, c ∈ w := by
  intro ws
  induction ws with
  | nil => intro h; cases h
  | cons w wr ih =>
    intro h
    cases wr with
    | nil =>
      rw [joinSpace_single] at h
      exact Or.inr ⟨w, List.mem_cons_self _ _, h⟩
    | cons w2 wr2 =>
      rw [joinSpace_cons2] at h
      rcases List.mem_append.mp h with hw | hrest
      · exact Or.inr ⟨w, List.mem_cons_self _ _, hw⟩
      · rcases List.mem_cons.mp hrest with rfl | hjoin
        · exact Or.inl rfl
        · rcases ih hjoin with hsp | ⟨w3, hw3, hc3⟩
          · exact Or.inl hsp
          · exact Or.inr ⟨w3, List.mem_cons_of_mem _ hw3, hc3⟩

theorem mem_replaceAllFuel {pat rep : List Char} {c : Char} :
    ∀ {fuel : ℕ} {l : List Char}, c ∈ replaceAllFuel pat rep fuel l →
    c ∈ rep ∨ c ∈ l := by
  intro fuel
  induction fuel with
  | zero => intro l h; exact Or.inr h
  | succ f ih =>
    intro l h
    cases l with
    | nil => cases h
    | cons d ds =>
      rw [replaceAllFuel_succ_cons] at h
      by_cases hp : (pat ≠ [] && prefixOfChars pat (d :: ds)) = true
      · rw [if_pos hp] at h
        rcases List.mem_append.mp h with hrep | hrec
        · exact Or.inl hrep
        · rcases ih hrec with hrep | hdrop
          · exact Or.inl hrep
          · exact Or.inr (List.mem_cons_of_mem _ (List.drop_subset _ _ hdrop))
      · rw [if_neg hp] at h
        rcases List.mem_cons.mp h with rfl | hrec
        · exact Or.inr (List.mem_cons_self _ _)
        · rcases ih hrec with hrep | hds
          · exact Or.inl hrep
          · exact Or.inr (List.mem_cons_of_mem _ hds)

theorem mem_strReplace {s pat rep : String} {c : Char}
    (h : c ∈ (strReplace s pat rep).toList) :
    c ∈ rep.toList ∨ c ∈ s.toList :=
  mem_replaceAllFuel h

theorem char_class_normalized {s : String} {c : Char}
    (h : c ∈ (normalizeWs (replaceSpecial (strLower s))).toList) :
    isWordChar c = true ∨ c = ' ' := by
  rcases mem_joinSpace h with hsp | ⟨w, hw, hcw⟩
  · exact Or.inr hsp
  · have hmem := mem_splitDropChars [] (by intro x hx; cases hx) hw hcw
    rcases hmem with ⟨hin, hws⟩
    have hin2 : c ∈ (replaceSpecial (strLower s)).toList := by
      rcases hin with hin | hin
      · cases hin
      · exact hin
    rcases List.mem_map.mp hin2 with ⟨d, _, hd⟩
    by_cases h1 : (isWordChar d || d.isWhitespace) = true
    · rw [if_pos h1] at hd
      subst hd
      rcases Bool.or_eq_true_iff.mp h1 with hwc | hdw
      · exact Or.inl hwc
      · rw [hdw] at hws
        cases hws
    · rw [if_neg h1] at hd
      subst hd
      cases hws

theorem char_class_foldl_phrases {P : Char → Prop}
    (hrep : ∀ ph ∈ phrases_to_join, ∀ c ∈ (strReplace ph " " "_").toList, P c) :
    ∀ (ps : List String), (∀ ph ∈ ps, ph ∈ phrases_to_join) →
    ∀ (t : String), (∀ c ∈ t.toList, P c) →
    ∀ c ∈ ((ps.foldl
      (fun t phrase =>
        if strContains t phrase then strReplace t phrase (strReplace phrase " " "_")
        else t) t).toList), P c := by
  intro ps
  induction ps with
  | nil => intro _ t ht c hc; exact ht c hc
  | cons ph pr ih =>
    intro hsub t ht c hc
    rw [List.foldl_cons] at hc
    refine ih (fun q hq => hsub q (List.mem_cons_of_mem _ hq)) _ ?_ c hc
    intro d hd
    by_cases hcon : strContains t ph = true
    · rw [if_pos hcon] at hd
      rcases mem_strReplace hd with hin | hin
      · exact hrep ph (hsub ph (List.mem_cons_self _ _)) d hin
      · exact ht d hin
    · rw [if_neg hcon] at hd
      exact ht d hd

/-- C10 amended: the normalizer replaces every character that is
neither a word character (alphanumeric or underscore) nor whitespace
with a space — underscores, being `\w` characters, are preserved (see
the counterexample) — and consequently every character of the
normalizer's output is a word character or a space. -/
theorem C10_replacement_amended (s : String) :
    (replaceSpecial s).toList
      = s.toList.map (fun c => if isWordChar c || c.isWhitespace then c else ' ')
    ∧ ∀ c ∈ (_preprocess_text s).toList, isWordChar c = true ∨ c = ' ' := by
  refine ⟨rfl, ?_⟩
  intro c hc
  rw [_preprocess_text] at hc
  by_cases hs : s = ""
  · rw [if_pos hs] at hc
    cases hc
  · rw [if_neg hs] at hc
    refine char_class_foldl_phrases (P := fun c => isWordChar c = true ∨ c = ' ')
      ?_ phrases_to_join (fun ph hp => hp) _ ?_ c hc
    · decide
    · intro d hd
      exact char_class_normalized hd

/-- C10 witness for the amended theorem at a concrete string. -/
theorem C10_replacement_amended_witness :
    ('b' ∈ (_preprocess_text "a_b!c").toList)
    ∧ (isWordChar 'b' = true ∨ 'b' = ' ') :=
  ⟨by decide, (C10_replacement_amended "a_b!c").2 'b' (by decide)⟩

theorem isEmpty_false_of_length_pos {α : Type} {l : List α} (h : 0 < l.length) :
    l.isEmpty = false := by
  cases l with
  | nil => cases h
  | cons a as => rfl

theorem map_getD_scored (l : List (ℕ × ℚ)) (f : ℕ × ℚ → ScoredAssessment) (k : ℕ)
    (h : k < l.length) :
    (l.map f).getD k default = f (l.get ⟨k, h⟩) := by
  rw [List.getD_eq_getD_get?, List.get?_map, List.get?_eq_get h]
  rfl

/-- C5 amended: for the query exactly "administrative assistant", the
built-in sample catalog, default `top_k = 10` and no filters, the
Customer Service record is ranked strictly above the Python record in
the result of `get_recommendations`, whatever the raw cosine scores in
`[0,1]` are: the domain penalty fixes the Python record's adjusted
score below `1 - 1149/680 < 0` while the role boost fixes the Customer
Service record's at least at `8627/17000 > 0`.  (The original claim
quantified over every query containing the substring, which the
counterexample refutes.) -/
theorem C5_cs_above_python_amended (raws : List ℚ)
    (hlen : raws.length = 10) (hb : ∀ s ∈ raws, 0 ≤ s ∧ s ≤ 1) :
    ∃ i j : ℕ, i < j
      ∧ j < (get_recommendations sampleAssessments raws "administrative assistant"
          10 none none none).length
      ∧ ((get_recommendations sampleAssessments raws "administrative assistant"
          10 none none none).getD i default).assessment.name = "Customer Service Assessment"
      ∧ ((get_recommendations sampleAssessments raws "administrative assistant"
          10 none none none).getD j default).assessment.name = "Coding Assessment for Python" := by
  have hlenS : (sortedSimilarities sampleAssessments raws "administrative assistant").length
      = 10 := by
    rw [length_sortedSimilarities]
    rfl
  have hlen0 : (boostedSimilarities sampleAssessments raws "administrative assistant").length
      = 10 := by
    rw [length_boostedSimilarities]
    rfl
  have hb4 : computeBoost (strLower "administrative assistant")
      ((splitWs (strLower "administrative assistant")).dedup)
      (jobCategories (strLower "administrative assistant"))
      (sampleAssessments.getD 4 default) = -1149/680 := by decide
  have hb6 : computeBoost (strLower "administrative assistant")
      ((splitWs (strLower "administrative assistant")).dedup)
      (jobCategories (strLower "administrative assistant"))
      (sampleAssessments.getD 6 default) = 8627/17000 := by decide
  have h4 : (boostedSimilarities sampleAssessments raws "administrative assistant").get
      ⟨4, by rw [hlen0]; norm_num⟩ = (4, raws.getD 4 0 + (-1149/680 : ℚ)) := by
    rw [get_boostedSimilarities, hb4]
  have h6 : (boostedSimilarities sampleAssessments raws "administrative assistant").get
      ⟨6, by rw [hlen0]; norm_num⟩ = (6, raws.getD 6 0 + (8627/17000 : ℚ)) := by
    rw [get_boostedSimilarities, hb6]
  have hm4 : (4, raws.getD 4 0 + (-1149/680 : ℚ))
      ∈ sortedSimilarities sampleAssessments raws "administrative assistant" := by
    have hmem : (4, raws.getD 4 0 + (-1149/680 : ℚ))
        ∈ boostedSimilarities sampleAssessments raws "administrative assistant" := by
      rw [← h4]
      exact List.get_mem _ _ _
    exact mem_sortDesc.mpr hmem
  have hm6 : (6, raws.getD 6 0 + (8627/17000 : ℚ))
      ∈ sortedSimilarities sampleAssessments raws "administrative assistant" := by
    have hmem : (6, raws.getD 6 0 + (8627/17000 : ℚ))
        ∈ boostedSimilarities sampleAssessments raws "administrative assistant" := by
      rw [← h6]
      exact List.get_mem _ _ _
    exact mem_sortDesc.mpr hmem
  have hr4le : raws.getD 4 0 ≤ 1 := by
    have h4lt : 4 < raws.length := by rw [hlen]; norm_num
    exact (hb _ (getD_mem_of_lt h4lt)).2
  have hr6ge : (0 : ℚ) ≤ raws.getD 6 0 := by
    have h6lt : 6 < raws.length := by rw [hlen]; norm_num
    exact (hb _ (getD_mem_of_lt h6lt)).1
  have hx : raws.getD 4 0 + (-1149/680 : ℚ) < raws.getD 6 0 + (8627/17000 : ℚ) := by
    have hnum : (1 : ℚ) + (-1149/680) < 0 + 8627/17000 := by norm_num
    linarith
  obtain ⟨n4, hn4⟩ := List.get_of_mem hm4
  obtain ⟨n6, hn6⟩ := List.get_of_mem hm6
  have hpw := pairwise_rankRel_sortedSimilarities sampleAssessments raws
    "administrative assistant"
  have horder : n6.1 < n4.1 := by
    rcases lt_trichotomy n4.1 n6.1 with hlt | heq | hgt
    · have hrel := List.pairwise_iff_get.mp hpw n4 n6 hlt
      rw [hn4, hn6] at hrel
      rcases hrel with hlt2 | ⟨heq2, _⟩
      · exact absurd hlt2 (not_lt.mpr (le_of_lt hx))
      · have heq2t : raws.getD 4 0 + (-1149/680 : ℚ) = raws.getD 6 0 + (8627/17000 : ℚ) :=
          heq2
        rw [heq2t] at hx
        exact absurd hx (lt_irrefl _)
    · exfalso
      have heqn : n4 = n6 := Fin.ext heq
      rw [heqn, hn6] at hn4
      exact absurd (congrArg Prod.fst hn4) (by norm_num)
    · exact hgt
  have hsel := @selectRecs_noFilter sampleAssessments
    (maxScoreOf (sortedSimilarities sampleAssessments raws "administrative assistant")) 10
    (sortedSimilarities sampleAssessments raws "administrative assistant") 0
    (by norm_num) (by rw [hlenS])
  have hrec : get_recommendations sampleAssessments raws "administrative assistant"
      10 none none none
      = (sortedSimilarities sampleAssessments raws "administrative assistant").map
          (fun p => mkScored (sampleAssessments.getD p.1 default)
            (if 0 < maxScoreOf (sortedSimilarities sampleAssessments raws
                "administrative assistant")
             then p.2 / maxScoreOf (sortedSimilarities sampleAssessments raws
                "administrative assistant") else 0)) := by
    simp only [get_recommendations]
    rw [hsel]
    have hemp := isEmpty_false_of_length_pos
      (l := (sortedSimilarities sampleAssessments raws "administrative assistant").map
        (fun p => mkScored (sampleAssessments.getD p.1 default)
          (if 0 < maxScoreOf (sortedSimilarities sampleAssessments raws
              "administrative assistant")
           then p.2 / maxScoreOf (sortedSimilarities sampleAssessments raws
              "administrative assistant") else 0)))
      (by rw [List.length_map, hlenS]; norm_num)
    rw [if_neg (by rw [hemp]; simp)]
  have hRlen : (get_recommendations sampleAssessments raws "administrative assistant"
      10 none none none).length = 10 := by
    rw [hrec, List.length_map, hlenS]
  refine ⟨n6.1, n4.1, horder, ?_, ?_, ?_⟩
  · rw [hRlen, ← hlenS]
    exact n4.2
  · rw [hrec, map_getD_scored _ _ _ n6.2]
    have hn6e : (sortedSimilarities sampleAssessments raws "administrative assistant").get
        ⟨n6.1, n6.2⟩ = (6, raws.getD 6 0 + (8627/17000 : ℚ)) := hn6
    rw [hn6e]
    rfl
  · rw [hrec, map_getD_scored _ _ _ n4.2]
    have hn4e : (sortedSimilarities sampleAssessments raws "administrative assistant").get
        ⟨n4.1, n4.2⟩ = (4, raws.getD 4 0 + (-1149/680 : ℚ)) := hn4
    rw [hn4e]
    rfl

/-- C5 witness for the amended theorem: the all-zero raw-score row. -/
theorem C5_cs_above_python_amended_witness :
    (List.replicate 10 (0 : ℚ)).length = 10
    ∧ (∀ s ∈ List.replicate 10 (0 : ℚ), 0 ≤ s ∧ s ≤ 1)
    ∧ ∃ i j : ℕ, i < j
      ∧ j < (get_recommendations sampleAssessments (List.replicate 10 0)
          "administrative assistant" 10 none none none).length
      ∧ ((get_recommendations sampleAssessments (List.replicate 10 0)
          "administrative assistant" 10 none none none).getD i default).assessment.name
        = "Customer Service Assessment"
      ∧ ((get_recommendations sampleAssessments (List.replicate 10 0)
          "administrative assistant" 10 none none none).getD j default).assessment.name
        = "Coding Assessment for Python" :=
  ⟨by decide, by decide,
   C5_cs_above_python_amended (List.replicate 10 0) (by decide) (by decide)⟩

set_option maxHeartbeats 1600000 in
/-- C5 counterexample: the claim quantifies over every catalog
containing both the "Coding Assessment for Python" and
"Customer Service Assessment" sample records.  For the query
"administrative assistant" (which contains the required substring,
first conjunct) and the catalog `c5CexCatalog` — which contains both
sample records (second and third conjuncts) and whose fitted
vocabulary shares no token with the query, so every true raw cosine
score is 0 (fourth conjunct) — the names returned by
`get_recommendations` at the default `top_k = 10` with no filters are
the ten empty names of the crafted records: the Customer Service
record is NOT ranked above the Python record in the result, because
neither record is returned at all. -/
theorem C5_counterexample_catalog_extension :
    strContains (strLower "administrative assistant") "administrative assistant" = true
    ∧ sampleAssessments.getD 4 default ∈ c5CexCatalog
    ∧ sampleAssessments.getD 6 default ∈ c5CexCatalog
    ∧ queryVectorIsZero c5CexCatalog "administrative assistant" = true
    ∧ (get_recommendations c5CexCatalog (List.replicate 12 0) "administrative assistant"
        10 none none none).map (fun r => r.assessment.name) = List.replicate 10 "" := by
  refine ⟨by decide, by decide, by decide, by decide, by decide⟩
